import Mathlib

/-!
Verification development for the badger-backed ActivityPub storage engine
(go-ap/storage-badger).  The definitions below are a shallow embedding of
the Go source: the key-value store is a total function from string keys to
optional stored values, the path codec mirrors `itemPath` together with the
relevant behaviour of net/url.Parse and path/filepath.Join, and the
collection engine mirrors `onCollection`, `AddTo`, `RemoveFrom`,
`createCollections` and `save` from repository.go.  The metadata store
mirrors metadata.go and the OAuth2 store mirrors osin.go.  All string
manipulation is done on the underlying character lists with structural
recursion so that every definition evaluates inside the kernel.
-/

namespace Badger

/-- Model of a net/url URL restricted to the hierarchical http(s)-style
IRIs this store works with: a scheme, a host and a path.  The query and
the fragment are stripped from the path, as net/url.Parse does when it
populates the Path field. -/
structure ParsedURL where
  scheme : String
  host : String
  path : String
deriving DecidableEq, Repr

/-- True when the character list holds an ASCII control character;
net/url.Parse rejects such URLs. -/
def containsControl (l : List Char) : Bool :=
  l.any (fun c => c.toNat < 32)

/-- Drops the query and the fragment from the tail of a path, mirroring
how net/url.Parse separates Path from RawQuery and Fragment. -/
def takeUntilQF (l : List Char) : List Char :=
  l.takeWhile (fun c => c ≠ '?' && c ≠ '#')

/-- Splits a character list at the first scheme separator (colon slash
slash), returning the part before it and the part after it. -/
def breakScheme : List Char → Option (List Char × List Char)
  | [] => none
  | c :: rest =>
    if c = ':' ∧ rest.take 2 = ['/', '/'] then some ([], rest.drop 2)
    else
      match breakScheme rest with
      | some (a, b) => some (c :: a, b)
      | none => none

/-- Model of net/url.Parse restricted to the IRI shapes the repository
stores.  Strings holding ASCII control characters fail to parse, which is
the parse-failure class net/url.Parse reports; a schemeless string parses
with an empty host and the whole string as path, as net/url.Parse does;
otherwise the host extends to the first slash and the path is the
remainder stripped of query and fragment. -/
def parseURL (iri : String) : Option ParsedURL :=
  let l := iri.data
  if containsControl l then none
  else
    match breakScheme l with
    | none => some ⟨"", "", String.mk (takeUntilQF l)⟩
    | some (schemeL, restL) =>
      if schemeL = [] then none
      else
        let hostL := restL.takeWhile (fun c => c ≠ '/' && c ≠ '?' && c ≠ '#')
        let pathL := restL.dropWhile (fun c => c ≠ '/' && c ≠ '?' && c ≠ '#')
        some ⟨String.mk schemeL, String.mk hostL, String.mk (takeUntilQF pathL)⟩

/-- Splits a character list on the slash character; the result always has
at least one (possibly empty) component. -/
def splitSlash : List Char → List (List Char)
  | [] => [[]]
  | c :: rest =>
    let r := splitSlash rest
    if c = '/' then [] :: r
    else
      match r with
      | [] => [[c]]
      | h :: t => (c :: h) :: t

/-- One pass of the path/filepath Clean element loop: empty and dot
elements are dropped, a dotdot element pops the previous element unless
the accumulator is empty or already ends in dotdot. -/
def cleanParts (rooted : Bool) (acc : List String) : List String → List String
  | [] => acc.reverse
  | c :: rest =>
    if c = "" || c = "." then cleanParts rooted acc rest
    else if c = ".." then
      match acc with
      | [] => if rooted then cleanParts rooted [] rest else cleanParts rooted [".."] rest
      | h :: t =>
        if h = ".." then cleanParts rooted (".." :: h :: t) rest
        else cleanParts rooted t rest
    else cleanParts rooted (c :: acc) rest

/-- Joins a list of strings with the slash separator. -/
def intercalateSlash : List String → String
  | [] => ""
  | [a] => a
  | a :: rest => a ++ "/" ++ intercalateSlash rest

/-- Model of path/filepath.Clean on slash-separated paths. -/
def pathClean (p : String) : String :=
  if p = "" then (".")
  else
    let rooted : Bool := match p.data with | '/' :: _ => true | _ => false
    let parts := (splitSlash p.data).map String.mk
    let out := intercalateSlash (cleanParts rooted [] parts)
    if rooted then (if out = "" then ("/") else ("/") ++ out)
    else (if out = "" then (".") else out)

/-- Model of path/filepath.Join: the elements from the first non-empty one
are joined with a slash and the result is cleaned; all-empty input yields
the empty string. -/
def filepathJoin : List String → String
  | [] => ""
  | e :: rest => if e = "" then filepathJoin rest
                 else pathClean (intercalateSlash (e :: rest))

/-- Embedding of itemPath (repository.go): parse the IRI, return the empty
prefix when parsing fails, otherwise join the host and the path. -/
def itemPath (iri : String) : String :=
  match parseURL iri with
  | none => ""
  | some u => filepathJoin [u.host, u.path]

/-- Embedding of getObjectKey (repository.go): bytes.Join of the path and
the literal raw-object suffix with the slash separator. -/
def getObjectKey (p : String) : String :=
  p ++ "/" ++ "__raw"

/-- Embedding of getMetadataKey (metadata.go): the path joined with the
literal metadata suffix. -/
def getMetadataKey (p : String) : String :=
  p ++ "/" ++ "__meta_data"

/-- Symbolic model of a bcrypt hash: golang.org/x/crypto/bcrypt derives
the digest from the password and the cost, so the pair characterises the
output for the purpose of this development. -/
structure BcryptHash where
  pw : String
  cost : Nat
deriving DecidableEq, Repr

/-- Model of bcrypt.GenerateFromPassword: a cost below MinCost (4) is
replaced by DefaultCost (10); the repository always passes -1. -/
def bcryptGenerateFromPassword (pw : String) (cost : Int) : BcryptHash :=
  ⟨pw, if cost < 4 then 10 else cost.toNat⟩

/-- Embedding of the Metadata record (metadata.go): an optional password
hash and an optional PEM-encoded private key blob. -/
structure MetadataRec where
  pw : Option BcryptHash
  privateKey : Option String
deriving DecidableEq, Repr

/-- The fields of a vocabulary object that the storage engine inspects: a
stable id, whether the type is an actor type, and the owned sub-collection
references (the five actor streams and the three object streams from
createCollections in repository.go). -/
structure Obj where
  id : String
  isActor : Bool
  inbox : Option String
  outbox : Option String
  followers : Option String
  following : Option String
  liked : Option String
  replies : Option String
  likes : Option String
  shares : Option String
deriving DecidableEq, Repr

/-- A vocabulary item is either a bare IRI reference or an objectful
value. -/
inductive Item where
  | iri (i : String)
  | obj (o : Obj)
deriving DecidableEq, Repr

/-- Embedding of Item.GetLink: the IRI itself for a reference, the id for
an objectful value. -/
def Item.getLink : Item → String
  | .iri i => i
  | .obj o => o.id

/-- A value stored in the badger key space: either an encoded IRI list
(what onCollection and createCollectionInPath write), an encoded
vocabulary item, or an encoded metadata sidecar record. -/
inductive StoredVal where
  | iris (l : List String)
  | obj (o : Obj)
  | meta (m : MetadataRec)
deriving DecidableEq, Repr

/-- The badger key space as a total function from keys to optional stored
values. -/
abbrev Store := String → Option StoredVal

/-- A write of one key, as performed by tx.Set or WriteBatch.Set. -/
def setKey (st : Store) (k : String) (v : StoredVal) : Store :=
  fun q => if q = k then some v else st q

/-- The store with no entries. -/
def emptyStore : Store := fun _ => none

/-- The IRI list that onCollection obtains at a key: the decoded list when
the key holds an encoded IRI list, and the empty list when the key is
absent or its value does not decode to an IRI list (onCollection drops the
decode error and keeps the nil slice). -/
def iriListAt (st : Store) (k : String) : List String :=
  match st k with
  | some (.iris l) => l
  | _ => []

/-- The error kinds surfaced by the embedded operations, matching the
errors.Newf / errors.NotFoundf / errNotOpen sites of the source. -/
inductive Err where
  | notOpen
  | notFound
  | nilElement
  | noCollection
  | invalidLink
  | nilPw
  | nilClient
  | unauthorized
deriving DecidableEq, Repr

/-- Embedding of onCollection (repository.go): guard against a nil item,
an empty collection IRI and an item without a link; read the IRI list at
the object key of the collection path, apply the mutator, re-encode and
write the result back at the same key. -/
def onCollection (st : Store) (col : String) (it : Option Item)
    (fn : List String → List String) : Except Err Store :=
  match it with
  | none => .error .nilElement
  | some item =>
    if col = "" then .error .noCollection
    else if item.getLink = "" then .error .invalidLink
    else
      let rawKey := getObjectKey (itemPath col)
      .ok (setKey st rawKey (.iris (fn (iriListAt st rawKey))))

/-- The mutator AddTo passes to onCollection: return the list unchanged
when it already holds the link, otherwise append the link. -/
def addToFn (x : String) (iris : List String) : List String :=
  if iris.contains x then iris else iris ++ [x]

/-- The mutator RemoveFrom passes to onCollection: remove the first
element equal to the link and stop, as the range-and-break loop does. -/
def removeFirst (x : String) : List String → List String
  | [] => []
  | i :: rest => if i = x then rest else i :: removeFirst x rest

/-- The collection names recognised by vocab.ValidCollection: the owned
ActivityPub streams. -/
def apCollections : List String :=
  ["inbox", "outbox", "followers", "following", "liked",
   "likes", "shares", "replies"]

/-- The collection names in allStorageCollections (the ActivityPub streams
together with the FedBOX storage roots), used by Split. -/
def allStorageCollections : List String :=
  apCollections ++ ["activities", "actors", "objects"]

/-- The last slash-separated component of an IRI. -/
def baseName (s : String) : String :=
  match (splitSlash s.data).reverse with
  | [] => ""
  | h :: _ => String.mk h

/-- Embedding of CollectionPaths.Split: when the IRI ends in a known
collection name, return the IRI without that final component together
with the name; otherwise return the IRI and the empty name. -/
def splitCollection (col : String) : String × String :=
  let b := baseName col
  if b ≠ "" ∧ allStorageCollections.contains b then
    (String.mk (col.data.take (col.data.length - (b.data.length + 1))), b)
  else (col, "")

/-- Embedding of vocab.ValidCollection: membership in the ActivityPub
stream names. -/
def validCollection (t : String) : Bool :=
  apCollections.contains t

/-- Embedding of CollectionPath.AddTo on an object: when the named stream
field is unset, set it to the IRI of that stream under the object id and
report true; otherwise leave the object alone and report false. -/
def colAddTo (t : String) (o : Obj) : Obj × Bool :=
  if t = "inbox" then
    match o.inbox with
    | none => ({o with inbox := some (o.id ++ "/" ++ t)}, true)
    | some _ => (o, false)
  else if t = "outbox" then
    match o.outbox with
    | none => ({o with outbox := some (o.id ++ "/" ++ t)}, true)
    | some _ => (o, false)
  else if t = "followers" then
    match o.followers with
    | none => ({o with followers := some (o.id ++ "/" ++ t)}, true)
    | some _ => (o, false)
  else if t = "following" then
    match o.following with
    | none => ({o with following := some (o.id ++ "/" ++ t)}, true)
    | some _ => (o, false)
  else if t = "liked" then
    match o.liked with
    | none => ({o with liked := some (o.id ++ "/" ++ t)}, true)
    | some _ => (o, false)
  else if t = "replies" then
    match o.replies with
    | none => ({o with replies := some (o.id ++ "/" ++ t)}, true)
    | some _ => (o, false)
  else if t = "likes" then
    match o.likes with
    | none => ({o with likes := some (o.id ++ "/" ++ t)}, true)
    | some _ => (o, false)
  else if t = "shares" then
    match o.shares with
    | none => ({o with shares := some (o.id ++ "/" ++ t)}, true)
    | some _ => (o, false)
  else (o, false)

/-- Distillation of loadOneFromPath for a plain object IRI: the object
stored at the object key of the IRI path, none when the key is absent or
holds a non-object value (the full source runs a depth-capped iterator
over the key space; an object IRI resolves to exactly this key). -/
def loadOneFromPath (st : Store) (iri : String) : Option Obj :=
  match st (getObjectKey (itemPath iri)) with
  | some (.obj o) => some o
  | _ => none

/-- Embedding of createCollectionInPath (repository.go): a nil reference
is ignored; otherwise the encoded empty IRI list is written at the object
key of the reference path. -/
def createCollectionInPathS (st : Store) (c : Option String) : Store :=
  match c with
  | none => st
  | some iri => setKey st (getObjectKey (itemPath iri)) (.iris [])

/-- Embedding of createCollections (repository.go): for an actor type the
five actor streams are created, then the three object streams are created
for every object. -/
def createCollections (st : Store) (it : Obj) : Store :=
  let st1 :=
    if it.isActor then
      createCollectionInPathS (createCollectionInPathS (createCollectionInPathS
        (createCollectionInPathS (createCollectionInPathS st it.inbox)
          it.outbox) it.followers) it.following) it.liked
    else st
  createCollectionInPathS (createCollectionInPathS
    (createCollectionInPathS st1 it.replies) it.likes) it.shares

/-- Embedding of save (repository.go): create the owned sub-collections,
then write the encoded object at its object key; both writes go into one
batch. -/
def save (st : Store) (it : Obj) : Store :=
  let st1 := createCollections st it
  setKey st1 (getObjectKey (itemPath it.id)) (.obj it)

/-- Embedding of addCollectionOnObject (repository.go): split the
collection IRI; when the final component is a valid stream name and the
parent object is stored, add the stream to the parent and re-save it. -/
def addCollectionOnObject (st : Store) (col : String) : Store :=
  let p := splitCollection col
  if validCollection p.2 then
    match loadOneFromPath st p.1 with
    | some o =>
      match colAddTo p.2 o with
      | (o2, true) => save st o2
      | (_, false) => st
    | none => st
  else st

/-- Embedding of AddTo (repository.go): run addCollectionOnObject (its
error is discarded by the source), then run onCollection with the
append-if-absent mutator over the item link. -/
def AddToS (st : Store) (col : String) (it : Option Item) : Except Err Store :=
  let st1 := addCollectionOnObject st col
  onCollection st1 col it (addToFn (match it with | some i => i.getLink | none => ""))

/-- Embedding of RemoveFrom (repository.go): onCollection with the
remove-first-match mutator over the item link. -/
def RemoveFromS (st : Store) (col : String) (it : Option Item) : Except Err Store :=
  onCollection st col it (removeFirst (match it with | some i => i.getLink | none => ""))

/-- The store content at a key after an operation that may fail: none when
the operation failed, otherwise the optional value at the key. -/
def storeAt (r : Except Err Store) (k : String) : Option (Option StoredVal) :=
  match r with
  | .ok st => some (st k)
  | .error _ => none

/-- The public repository handle of repository.go: the badger handle is
open or not, plus the persistent key space.  Opening always succeeds in
this model, matching badger on a valid (or in-memory) path. -/
structure RepoState where
  opened : Bool
  store : Store

/-- Distillation of loadFromPath for a plain item IRI: the depth-capped
iterator over the IRI prefix resolves an item IRI to the value at its
object key; an absent or non-object value is the not-found case. -/
def loadFromPathOne (st : Store) (iri : String) : Except Err Obj :=
  match st (getObjectKey (itemPath iri)) with
  | some (.obj o) => .ok o
  | _ => .error .notFound

/-- Embedding of the public Load (repository.go): the method calls
r.Open() itself and the checked error variable is never assigned from it,
so the load proceeds on the freshly opened handle regardless of the
previous handle state; it never reports a not-open error. -/
def LoadR (r : RepoState) (iri : String) : Except Err Obj :=
  let r1 : RepoState := ⟨true, r.store⟩
  loadFromPathOne r1.store iri

/-- Embedding of the public Save (repository.go): the method opens the
handle itself (the open succeeds on a valid path) and then runs save; it
never reports a not-open error. -/
def SaveR (r : RepoState) (it : Obj) : Except Err Store :=
  let r1 : RepoState := ⟨true, r.store⟩
  .ok (save r1.store it)

/-- Embedding of PasswordSet (metadata.go): a nil handle fails not-open; a
nil password fails before touching the store; an empty item path fails
not-found; otherwise the existing metadata record at the metadata key is
decoded (absent key leaves the zero record), its password field is
replaced with the bcrypt hash at default cost, and the record is written
back at the same key. -/
def passwordSet (opened : Bool) (st : Store) (iri : String)
    (pw : Option String) : Except Err Store :=
  if !opened then .error .notOpen
  else
    match pw with
    | none => .error .nilPw
    | some pwv =>
      let path := itemPath iri
      if path = "" then .error .notFound
      else
        let mkey := getMetadataKey path
        let m : MetadataRec :=
          match st mkey with
          | some (.meta m0) => m0
          | _ => ⟨none, none⟩
        .ok (setKey st mkey (.meta ⟨some (bcryptGenerateFromPassword pwv (-1)), m.privateKey⟩))

/-- The OAuth2 client record (osin.go, type cl).  The opaque Extra payload
is omitted: no claim inspects it. -/
structure ClRec where
  id : String
  secret : String
  redirectUri : String
deriving DecidableEq, Repr

/-- The OAuth2 authorize record (osin.go, type auth).  The opaque Extra
payload and the PKCE challenge fields are omitted: no claim inspects
them. -/
structure AuthRec where
  client : String
  code : String
  expiresIn : Int
  scope : String
  redirectURI : String
  state : String
  createdAt : Int
deriving DecidableEq, Repr

/-- The OAuth2 access record (osin.go, type acc). -/
structure AccRec where
  client : String
  authorize : String
  accessToken : String
  refreshToken : String
  expiresIn : Int
  scope : String
  redirectURI : String
  createdAt : Int
deriving DecidableEq, Repr

/-- The OAuth2 refresh pointer record (osin.go, type ref). -/
structure RefRec where
  access : String
deriving DecidableEq, Repr

/-- The in-memory osin.AuthorizeData produced by the load path: the client
is either absent, a bare stub holding only an id, or the fully loaded
record. -/
structure AuthorizeData where
  client : Option ClRec
  code : String
  expiresIn : Int
  scope : String
  redirectUri : String
  state : String
  createdAt : Int
deriving DecidableEq, Repr

/-- The in-memory osin.AccessData produced by the load path.  The type is
recursive because the refresh token resolves to a second-level access
record. -/
inductive AccessData where
  | mk (client : Option ClRec) (authorizeData : Option AuthorizeData)
      (accessData : Option AccessData) (accessToken : String)
      (refreshToken : String) (expiresIn : Int) (scope : String)
      (redirectUri : String) (createdAt : Int)

def AccessData.client : AccessData → Option ClRec
  | .mk c _ _ _ _ _ _ _ _ => c

def AccessData.authorizeData : AccessData → Option AuthorizeData
  | .mk _ a _ _ _ _ _ _ _ => a

def AccessData.accessData : AccessData → Option AccessData
  | .mk _ _ a _ _ _ _ _ _ => a

def AccessData.accessToken : AccessData → String
  | .mk _ _ _ t _ _ _ _ _ => t

def AccessData.refreshToken : AccessData → String
  | .mk _ _ _ _ t _ _ _ _ => t

def AccessData.expiresIn : AccessData → Int
  | .mk _ _ _ _ _ e _ _ _ => e

def AccessData.scope : AccessData → String
  | .mk _ _ _ _ _ _ s _ _ => s

def AccessData.redirectUri : AccessData → String
  | .mk _ _ _ _ _ _ _ r _ => r

def AccessData.createdAt : AccessData → Int
  | .mk _ _ _ _ _ _ _ _ c => c

def AccessData.withClient (a : AccessData) (c : Option ClRec) : AccessData :=
  match a with
  | .mk _ ad acc t r e s u ca => .mk c ad acc t r e s u ca

def AccessData.withAuthorizeData (a : AccessData) (ad : Option AuthorizeData) : AccessData :=
  match a with
  | .mk c _ acc t r e s u ca => .mk c ad acc t r e s u ca

def AccessData.withAccessData (a : AccessData) (acc : Option AccessData) : AccessData :=
  match a with
  | .mk c ad _ t r e s u ca => .mk c ad acc t r e s u ca

/-- The four disjoint OAuth2 key sub-trees under the oauth folder
(clients, authorize, access, refresh), each a map from the bucket-local
id to the record stored at badgerItemPath(bucket, id). -/
structure OauthStore where
  clients : String → Option ClRec
  authorize : String → Option AuthRec
  access : String → Option AccRec
  refresh : String → Option RefRec

/-- Embedding of loadTxnClient together with loadRawClient (osin.go): the
record at the client path, not-found when absent. -/
def loadTxnClient (ost : OauthStore) (id : String) : Except Err ClRec :=
  match ost.clients id with
  | none => .error .notFound
  | some c => .ok c

/-- Embedding of loadRawAuthorize (osin.go): copy the record fields, stub
the client from the stored client id when the code is non-empty, then fail
when the expiry instant (createdAt plus expiresIn) lies before now. -/
def loadRawAuthorize (rec : AuthRec) (now : Int) : Except Err AuthorizeData :=
  let a : AuthorizeData :=
    ⟨if rec.code ≠ "" then some ⟨rec.client, "", ""⟩ else none,
     rec.code, rec.expiresIn, rec.scope, rec.redirectURI, rec.state, rec.createdAt⟩
  if rec.createdAt + rec.expiresIn < now then .error .unauthorized
  else .ok a

/-- Embedding of loadTxnAuthorize (osin.go): load the raw record at the
authorize path, then re-load the stubbed client in the same view; a
failing client load is propagated. -/
def loadTxnAuthorize (ost : OauthStore) (now : Int) (code : String) :
    Except Err AuthorizeData :=
  match ost.authorize code with
  | none => .error .notFound
  | some rec =>
    match loadRawAuthorize rec now with
    | .error e => .error e
    | .ok a =>
      match a.client with
      | some c0 =>
        match loadTxnClient ost c0.id with
        | .error e => .error e
        | .ok cl => .ok {a with client := some cl}
      | none => .ok a

/-- Embedding of loadRawAccess (osin.go): build the in-memory access data
from the stored record; the client stub needs a non-empty stored client
id, and the authorize and refresh stubs are produced only when
dependencies are requested. -/
def loadRawAccess (rec : AccRec) (loadDeps : Bool) : AccessData :=
  .mk (if rec.client ≠ "" then some ⟨rec.client, "", ""⟩ else none)
    (if loadDeps ∧ rec.authorize ≠ "" then
      some ⟨none, rec.authorize, 0, "", "", "", 0⟩ else none)
    (if loadDeps ∧ rec.refreshToken ≠ "" then
      some (.mk none none none rec.refreshToken ("") 0 ("") "" 0) else none)
    rec.accessToken rec.refreshToken rec.expiresIn rec.scope rec.redirectURI
    rec.createdAt

/-- Embedding of loadTxnAccess with loadDeps false (osin.go): the record
at the access path with the client re-loaded when possible; a failing
client load keeps the stub. -/
def loadTxnAccessShallow (ost : OauthStore) (token : String) :
    Except Err AccessData :=
  match ost.access token with
  | none => .error .notFound
  | some rec =>
    let a := loadRawAccess rec false
    let a :=
      match a.client with
      | some c0 =>
        if c0.id ≠ "" then
          match loadTxnClient ost c0.id with
          | .ok cl => a.withClient (some cl)
          | .error _ => a
        else a
      | none => a
    .ok a

/-- Embedding of loadTxnAccess with loadDeps true (osin.go): additionally
chase the authorize code (keeping the stub when the chase fails) and the
refresh token, the latter through a second loadTxnAccess that does not
chase dependencies; a failing refresh chase clears the second-level
record. -/
def loadTxnAccessFull (ost : OauthStore) (now : Int) (token : String) :
    Except Err AccessData :=
  match ost.access token with
  | none => .error .notFound
  | some rec =>
    let a := loadRawAccess rec true
    let a :=
      match a.client with
      | some c0 =>
        if c0.id ≠ "" then
          match loadTxnClient ost c0.id with
          | .ok cl => a.withClient (some cl)
          | .error _ => a
        else a
      | none => a
    let a :=
      match a.authorizeData with
      | some ad =>
        if ad.code ≠ "" then
          match loadTxnAuthorize ost now ad.code with
          | .ok auth => a.withAuthorizeData (some auth)
          | .error _ => a
        else a
      | none => a
    let a :=
      if a.refreshToken ≠ "" then
        match loadTxnAccessShallow ost a.refreshToken with
        | .ok rf => a.withAccessData (some rf)
        | .error _ => a.withAccessData none
      else a
    .ok a

/-- Embedding of the public LoadAccess (osin.go): nil handle fails
not-open, an empty code fails not-found, otherwise loadTxnAccess with
dependency chasing runs in one view. -/
def LoadAccess (opened : Bool) (ost : OauthStore) (now : Int)
    (code : String) : Except Err AccessData :=
  if !opened then .error .notOpen
  else if code = "" then .error .notFound
  else loadTxnAccessFull ost now code

/-- Embedding of the public GetClient (osin.go): nil handle fails
not-open, an empty id fails not-found, otherwise the client record is
loaded in one view. -/
def GetClient (opened : Bool) (ost : OauthStore) (id : String) :
    Except Err ClRec :=
  if !opened then .error .notOpen
  else if id = "" then .error .notFound
  else loadTxnClient ost id

/-- Embedding of the public SaveAccess (osin.go): nil handle fails
not-open; an empty refresh token is defaulted from the nested access
record; a nil client fails before the batch is flushed; otherwise the
refresh pointer (when a refresh token is present) and the access record
are written in one batch. -/
def SaveAccess (opened : Bool) (ost : OauthStore) (data : AccessData) :
    Except Err OauthStore :=
  if !opened then .error .notOpen
  else
    let authorizeCode :=
      match data.authorizeData with
      | some ad => ad.code
      | none => ""
    let refreshToken :=
      if data.accessData.isSome ∧ data.refreshToken = "" then
        match data.accessData with
        | some prev => prev.accessToken
        | none => data.refreshToken
      else data.refreshToken
    match data.client with
    | none => .error .nilClient
    | some c =>
      let ost1 :=
        if refreshToken ≠ "" then
          {ost with refresh := fun q =>
            if q = refreshToken then some ⟨data.accessToken⟩ else ost.refresh q}
        else ost
      let rec0 : AccRec :=
        ⟨c.id, authorizeCode, data.accessToken, refreshToken, data.expiresIn,
         data.scope, data.redirectUri, data.createdAt⟩
      .ok {ost1 with access := fun q =>
        if q = data.accessToken then some rec0 else ost1.access q}

/-- A concrete OAuth2 store holding one client, one authorize record and
one pre-existing access record at the refresh token key. -/
def c8Ost : OauthStore :=
  ⟨fun q => if q = "c1" then some ⟨"c1", "sec", "uri"⟩ else none,
   fun q => if q = "a1" then some ⟨"c1", "a1", 3600, "", "", "", 0⟩ else none,
   fun q => if q = "r1" then some ⟨"", "", "t0", "", 0, "", "", 0⟩ else none,
   fun _ => none⟩

/-- A concrete access-data value to be stored with SaveAccess. -/
def c8Data : AccessData :=
  .mk (some ⟨"c1", "", ""⟩) (some ⟨none, "a1", 3600, "", "", "", 0⟩) none
    ("t1") "r1" 3600 ("") "" 0

/-- Projection of a stored value to the IRI list it decodes to in
onCollection: any non-list value decodes to the empty list. -/
def valList : StoredVal → List String
  | .iris l => l
  | _ => []

/-- The collection references createCollections materialises for an
object: the five actor streams when the type is an actor type, and the
three object streams always. -/
def collectionRefs (o : Obj) : List String :=
  ((if o.isActor then [o.inbox, o.outbox, o.followers, o.following, o.liked]
    else []) ++ [o.replies, o.likes, o.shares]).filterMap id

/-- A store evolution that at every key either keeps the decoded IRI list
or empties it; every write path of addCollectionOnObject has this shape
because it only writes empty lists and encoded objects. -/
def ListPres (st st2 : Store) : Prop :=
  ∀ k, iriListAt st2 k = iriListAt st k ∨ iriListAt st2 k = []

/-- A store evolution whose every changed key is an object key; the write
paths of AddTo and RemoveFrom have this shape. -/
def WritesRawOnly (st st2 : Store) : Prop :=
  ∀ k, st2 k ≠ st k → ∃ p, k = getObjectKey p

/-- A store in which every stored object sits at the object key of its own
id path; save writes objects only in this position. -/
def Consistent (st : Store) : Prop :=
  ∀ k o, st k = some (.obj o) → k = getObjectKey (itemPath o.id)

/-- Repeated invocation of AddTo with the same collection and item IRI,
as in the dedup property of the specification. -/
def addToIter (col x : String) : Nat → Store → Except Err Store
  | 0, st => .ok st
  | n + 1, st =>
    match AddToS st col (some (.iri x)) with
    | .ok st2 => addToIter col x n st2
    | .error e => .error e

/-- Embedding of loadItemsElements (repository.go) for an IRI list: each
IRI is dereferenced at its object key inside one view; load failures are
skipped and items already present (by id) are not appended again. -/
def loadItemsElements (st : Store) (acc : List Obj) : List String → List Obj
  | [] => acc
  | i :: rest =>
    match st (getObjectKey (itemPath i)) with
    | some (.obj o) =>
      if acc.any (fun m => m.id = o.id) then loadItemsElements st acc rest
      else loadItemsElements st (acc ++ [o]) rest
    | _ => loadItemsElements st acc rest

/-- The owned-collection read path of Load (repository.go): the IRI list
at the object key of the collection path is dereferenced member-wise via
loadItemsElements. -/
def loadCollectionItems (st : Store) (col : String) : List Obj :=
  loadItemsElements st [] (iriListAt st (getObjectKey (itemPath col)))

/-- The private key currently stored in the metadata record at a key, if
any. -/
def metaPrivateKeyAt (st : Store) (k : String) : Option String :=
  match st k with
  | some (.meta m) => m.privateKey
  | _ => none

/-- An objectful item not yet present in the store, used for the
write-through scenario. -/
def c2Obj : Obj :=
  ⟨"http://example.com/1", false, none, none, none, none, none, none, none, none⟩

/-- A non-actor object with a non-empty replies sub-collection reference,
used for the re-save scenario. -/
def c3Obj : Obj :=
  ⟨"http://example.com/1", false, none, none, none, none, none,
   some ("http://example.com/1/replies"), none, none⟩

/-- A store in which the object key of c3Obj already exists and its
replies sub-collection already holds a member. -/
def c3Store : Store := fun k =>
  if k = getObjectKey (itemPath ("http://example.com/1")) then some (.obj c3Obj)
  else if k = getObjectKey (itemPath ("http://example.com/1/replies")) then
    some (.iris ["http://example.com/9"])
  else none

/-- A stored object used for the closed-handle load scenario. -/
def c6Obj : Obj :=
  ⟨"http://example.com/x", false, none, none, none, none, none, none, none, none⟩

/-- A store holding c6Obj at its object key. -/
def c6Store : Store := fun k =>
  if k = getObjectKey (itemPath ("http://example.com/x")) then some (.obj c6Obj)
  else none

/-- A metadata record with both a password hash and a private key. -/
def c7Meta : MetadataRec := ⟨some ⟨"old", 10⟩, some ("PEMKEY")⟩

/-- A store holding c7Meta at the metadata key of a user IRI. -/
def c7Store : Store := fun k =>
  if k = getMetadataKey (itemPath ("https://example.com/u")) then some (.meta c7Meta)
  else none

@[simp] lemma Item.getLink_iri (x : String) : (Item.iri x).getLink = x := rfl

@[simp] lemma Item.getLink_obj (o : Obj) : (Item.obj o).getLink = o.id := rfl

@[simp] lemma valList_iris (l : List String) : valList (.iris l) = l := rfl

lemma iriListAt_setKey_self (st : Store) (k : String) (v : StoredVal) :
    iriListAt (setKey st k v) k = valList v := by
  cases v <;> simp [iriListAt, setKey, valList]

lemma iriListAt_setKey_ne (st : Store) (k q : String) (v : StoredVal)
    (h : q ≠ k) : iriListAt (setKey st k v) q = iriListAt st q := by
  simp [iriListAt, setKey, h]

lemma listPres_refl (st : Store) : ListPres st st := fun _ => Or.inl rfl

lemma listPres_trans {st1 st2 st3 : Store} (h1 : ListPres st1 st2)
    (h2 : ListPres st2 st3) : ListPres st1 st3 := by
  intro k
  rcases h2 k with h | h
  · rcases h1 k with g | g
    · exact Or.inl (h.trans g)
    · exact Or.inr (h.trans g)
  · exact Or.inr h

lemma listPres_setKey (st : Store) (k : String) (v : StoredVal)
    (hv : valList v = []) : ListPres st (setKey st k v) := by
  intro q
  by_cases hq : q = k
  · subst hq
    exact Or.inr ((iriListAt_setKey_self st q v).trans hv)
  · exact Or.inl (iriListAt_setKey_ne st k q v hq)

lemma listPres_ccip (st : Store) (c : Option String) :
    ListPres st (createCollectionInPathS st c) := by
  cases c with
  | none => exact listPres_refl st
  | some iri => exact listPres_setKey st _ _ rfl

lemma listPres_createCollections (st : Store) (o : Obj) :
    ListPres st (createCollections st o) := by
  unfold createCollections
  have h1 : ListPres st (if o.isActor then
      createCollectionInPathS (createCollectionInPathS (createCollectionInPathS
        (createCollectionInPathS (createCollectionInPathS st o.inbox)
          o.outbox) o.followers) o.following) o.liked
    else st) := by
    by_cases h : o.isActor
    · simp only [h, if_true]
      exact listPres_trans (listPres_trans (listPres_trans (listPres_trans
        (listPres_ccip _ _) (listPres_ccip _ _)) (listPres_ccip _ _))
        (listPres_ccip _ _)) (listPres_ccip _ _)
    · simp only [h, if_false]
      exact listPres_refl st
  exact listPres_trans h1 (listPres_trans (listPres_trans (listPres_ccip _ _)
    (listPres_ccip _ _)) (listPres_ccip _ _))

lemma listPres_save (st : Store) (o : Obj) : ListPres st (save st o) :=
  listPres_trans (listPres_createCollections st o)
    (listPres_setKey _ _ _ rfl)

lemma listPres_addCollectionOnObject (st : Store) (col : String) :
    ListPres st (addCollectionOnObject st col) := by
  unfold addCollectionOnObject
  by_cases h : validCollection (splitCollection col).2
  · simp only [h, if_true]
    cases loadOneFromPath st (splitCollection col).1 with
    | none => exact listPres_refl st
    | some o =>
      rcases hc : colAddTo (splitCollection col).2 o with ⟨o2, b⟩
      simp only [hc]
      cases b
      · exact listPres_refl st
      · exact listPres_save st o2
  · simp only [h, if_false]
    exact listPres_refl st

lemma writesRawOnly_refl (st : Store) : WritesRawOnly st st :=
  fun _ h => absurd rfl h

lemma writesRawOnly_trans {st1 st2 st3 : Store} (h1 : WritesRawOnly st1 st2)
    (h2 : WritesRawOnly st2 st3) : WritesRawOnly st1 st3 := by
  intro k hk
  by_cases h : st3 k = st2 k
  · exact h1 k (fun g => hk (h.trans g))
  · exact h2 k h

lemma writesRawOnly_setKey (st : Store) (p : String) (v : StoredVal) :
    WritesRawOnly st (setKey st (getObjectKey p) v) := by
  intro k hk
  by_cases h : k = getObjectKey p
  · exact ⟨p, h⟩
  · exact absurd (by simp [setKey, h]) hk

lemma writesRawOnly_ccip (st : Store) (c : Option String) :
    WritesRawOnly st (createCollectionInPathS st c) := by
  cases c with
  | none => exact writesRawOnly_refl st
  | some iri => exact writesRawOnly_setKey st _ _

lemma writesRawOnly_createCollections (st : Store) (o : Obj) :
    WritesRawOnly st (createCollections st o) := by
  unfold createCollections
  have h1 : WritesRawOnly st (if o.isActor then
      createCollectionInPathS (createCollectionInPathS (createCollectionInPathS
        (createCollectionInPathS (createCollectionInPathS st o.inbox)
          o.outbox) o.followers) o.following) o.liked
    else st) := by
    by_cases h : o.isActor
    · simp only [h, if_true]
      exact writesRawOnly_trans (writesRawOnly_trans (writesRawOnly_trans
        (writesRawOnly_trans (writesRawOnly_ccip _ _) (writesRawOnly_ccip _ _))
        (writesRawOnly_ccip _ _)) (writesRawOnly_ccip _ _))
        (writesRawOnly_ccip _ _)
    · simp only [h, if_false]
      exact writesRawOnly_refl st
  exact writesRawOnly_trans h1 (writesRawOnly_trans (writesRawOnly_trans
    (writesRawOnly_ccip _ _) (writesRawOnly_ccip _ _)) (writesRawOnly_ccip _ _))

lemma writesRawOnly_save (st : Store) (o : Obj) :
    WritesRawOnly st (save st o) :=
  writesRawOnly_trans (writesRawOnly_createCollections st o)
    (writesRawOnly_setKey _ _ _)

lemma writesRawOnly_addCollectionOnObject (st : Store) (col : String) :
    WritesRawOnly st (addCollectionOnObject st col) := by
  unfold addCollectionOnObject
  by_cases h : validCollection (splitCollection col).2
  · simp only [h, if_true]
    cases loadOneFromPath st (splitCollection col).1 with
    | none => exact writesRawOnly_refl st
    | some o =>
      rcases hc : colAddTo (splitCollection col).2 o with ⟨o2, b⟩
      simp only [hc]
      cases b
      · exact writesRawOnly_refl st
      · exact writesRawOnly_save st o2
  · simp only [h, if_false]
    exact writesRawOnly_refl st

lemma onCollection_ok (st : Store) (col : String) (item : Item)
    (fn : List String → List String) (hcol : col ≠ "")
    (hlink : item.getLink ≠ "") :
    onCollection st col (some item) fn =
      .ok (setKey st (getObjectKey (itemPath col))
        (.iris (fn (iriListAt st (getObjectKey (itemPath col)))))) := by
  simp [onCollection, hcol, hlink]

lemma addToS_eq (st : Store) (col : String) (item : Item)
    (hcol : col ≠ "") (hlink : item.getLink ≠ "") :
    AddToS st col (some item) =
      .ok (setKey (addCollectionOnObject st col)
        (getObjectKey (itemPath col))
        (.iris (addToFn item.getLink (iriListAt (addCollectionOnObject st col)
          (getObjectKey (itemPath col)))))) := by
  unfold AddToS
  exact onCollection_ok _ col item _ hcol hlink

lemma removeFromS_eq (st : Store) (col : String) (item : Item)
    (hcol : col ≠ "") (hlink : item.getLink ≠ "") :
    RemoveFromS st col (some item) =
      .ok (setKey st (getObjectKey (itemPath col))
        (.iris (removeFirst item.getLink
          (iriListAt st (getObjectKey (itemPath col)))))) := by
  unfold RemoveFromS
  exact onCollection_ok _ col item _ hcol hlink

lemma addToFn_eq (x : String) (l : List String) :
    addToFn x l = if x ∈ l then l else l ++ [x] := by
  unfold addToFn
  by_cases h : x ∈ l
  · have hb : l.contains x = true := List.elem_eq_true_of_mem h
    rw [if_pos hb, if_pos h]
  · have hb : ¬(l.contains x = true) :=
      fun hc => h (List.mem_of_elem_eq_true hc)
    rw [if_neg hb, if_neg h]

lemma mem_addToFn_self (x : String) (l : List String) : x ∈ addToFn x l := by
  rw [addToFn_eq]
  by_cases h : x ∈ l <;> simp [h]

lemma mem_of_mem_addToFn {x y : String} {l : List String}
    (h : y ∈ addToFn x l) : y ∈ l ∨ y = x := by
  rw [addToFn_eq] at h
  by_cases hm : x ∈ l
  · rw [if_pos hm] at h
    exact Or.inl h
  · rw [if_neg hm] at h
    simp at h
    exact h

lemma count_addToFn (x : String) (l : List String) (h : l.count x ≤ 1) :
    (addToFn x l).count x = 1 := by
  rw [addToFn_eq]
  by_cases hm : x ∈ l
  · rw [if_pos hm]
    have h1 : 1 ≤ l.count x :=
      Nat.pos_of_ne_zero (fun h0 => (List.count_eq_zero.mp h0) hm)
    omega
  · rw [if_neg hm, List.count_append]
    simp [List.count_eq_zero.mpr hm]

lemma count_removeFirst (x : String) (l : List String) :
    (removeFirst x l).count x = l.count x - 1 := by
  induction l with
  | nil => simp [removeFirst]
  | cons a rest ih =>
    by_cases h : a = x
    · subst h
      simp [removeFirst, List.count_cons_self]
    · simp [removeFirst, h, List.count_cons_of_ne (fun g => h g.symm), ih]

lemma mem_of_mem_removeFirst {x y : String} {l : List String}
    (h : y ∈ removeFirst x l) : y ∈ l := by
  induction l with
  | nil => simp [removeFirst] at h
  | cons a rest ih =>
    by_cases ha : a = x
    · subst ha
      simp [removeFirst] at h
      exact List.mem_cons_of_mem a h
    · simp [removeFirst, ha] at h
      rcases h with h | h
      · simp [h]
      · exact List.mem_cons_of_mem a (ih h)

lemma not_mem_removeFirst_addToFn (x : String) (l : List String)
    (h : l.count x ≤ 1) : x ∉ removeFirst x (addToFn x l) := by
  intro hmem
  have h1 : (addToFn x l).count x = 1 := count_addToFn x l h
  have h0 : (removeFirst x (addToFn x l)).count x = 0 := by
    rw [count_removeFirst, h1]
  exact (List.count_eq_zero.mp h0) hmem

lemma string_append_cancel_left {a b c : String} (h : a ++ b = a ++ c) :
    b = c := by
  rcases a with ⟨la⟩
  rcases b with ⟨lb⟩
  rcases c with ⟨lc⟩
  have h2 : la ++ lb = la ++ lc := congrArg String.data h
  exact congrArg String.mk (List.append_cancel_left h2)

lemma string_append_cancel_right {a b c : String} (h : a ++ c = b ++ c) :
    a = b := by
  rcases a with ⟨la⟩
  rcases b with ⟨lb⟩
  rcases c with ⟨lc⟩
  have h2 : la ++ lc = lb ++ lc := congrArg String.data h
  exact congrArg String.mk (List.append_cancel_right h2)

lemma getObjectKey_inj {p q : String} (h : getObjectKey p = getObjectKey q) :
    p = q := by
  unfold getObjectKey at h
  exact string_append_cancel_right (string_append_cancel_right h)

lemma consistent_setKey_iris {st : Store} (k : String) (l : List String)
    (h : Consistent st) : Consistent (setKey st k (.iris l)) := by
  intro q o hq
  unfold setKey at hq
  by_cases e : q = k
  · rw [if_pos e] at hq
    simp at hq
  · rw [if_neg e] at hq
    exact h q o hq

lemma consistent_setKey_obj {st : Store} (o2 : Obj) (h : Consistent st) :
    Consistent (setKey st (getObjectKey (itemPath o2.id)) (.obj o2)) := by
  intro q o hq
  unfold setKey at hq
  by_cases e : q = getObjectKey (itemPath o2.id)
  · rw [if_pos e] at hq
    obtain rfl : o2 = o := by simpa using hq
    exact e
  · rw [if_neg e] at hq
    exact h q o hq

lemma consistent_ccip {st : Store} (c : Option String) (h : Consistent st) :
    Consistent (createCollectionInPathS st c) := by
  cases c with
  | none => exact h
  | some iri => exact consistent_setKey_iris _ _ h

lemma consistent_createCollections {st : Store} (o : Obj)
    (h : Consistent st) : Consistent (createCollections st o) := by
  unfold createCollections
  refine consistent_ccip _ (consistent_ccip _ (consistent_ccip _ ?_))
  by_cases hA : o.isActor
  · simp only [hA, if_true]
    exact consistent_ccip _ (consistent_ccip _ (consistent_ccip _
      (consistent_ccip _ (consistent_ccip _ h))))
  · simp only [hA, if_false]
    exact h

lemma consistent_save {st : Store} (o : Obj) (h : Consistent st) :
    Consistent (save st o) :=
  consistent_setKey_obj o (consistent_createCollections o h)

lemma consistent_addCollectionOnObject {st : Store} (col : String)
    (h : Consistent st) : Consistent (addCollectionOnObject st col) := by
  unfold addCollectionOnObject
  by_cases hv : validCollection (splitCollection col).2
  · simp only [hv, if_true]
    cases loadOneFromPath st (splitCollection col).1 with
    | none => exact h
    | some o =>
      rcases hc : colAddTo (splitCollection col).2 o with ⟨o2, b⟩
      simp only [hc]
      cases b
      · exact h
      · exact consistent_save o2 h
  · simp only [hv, if_false]
    exact h

lemma mem_loadItemsElements {st : Store} :
    ∀ {l : List String} {acc : List Obj} {o : Obj},
      o ∈ loadItemsElements st acc l →
      o ∈ acc ∨ ∃ i ∈ l, st (getObjectKey (itemPath i)) = some (.obj o) := by
  intro l
  induction l with
  | nil =>
    intro acc o h
    unfold loadItemsElements at h
    exact Or.inl h
  | cons i rest ih =>
    intro acc o h
    unfold loadItemsElements at h
    rcases hv : st (getObjectKey (itemPath i)) with _ | v
    · rw [hv] at h
      rcases ih h with h2 | ⟨j, hj, hjo⟩
      · exact Or.inl h2
      · exact Or.inr ⟨j, List.mem_cons_of_mem i hj, hjo⟩
    · rcases v with l2 | o2 | m
      · rw [hv] at h
        rcases ih h with h2 | ⟨j, hj, hjo⟩
        · exact Or.inl h2
        · exact Or.inr ⟨j, List.mem_cons_of_mem i hj, hjo⟩
      · rw [hv] at h
        dsimp only at h
        by_cases hd : acc.any (fun m => m.id = o2.id)
        · rw [if_pos hd] at h
          rcases ih h with h2 | ⟨j, hj, hjo⟩
          · exact Or.inl h2
          · exact Or.inr ⟨j, List.mem_cons_of_mem i hj, hjo⟩
        · rw [if_neg hd] at h
          rcases ih h with h2 | ⟨j, hj, hjo⟩
          · rcases List.mem_append.mp h2 with h3 | h3
            · exact Or.inl h3
            · obtain rfl : o = o2 := List.mem_singleton.mp h3
              exact Or.inr ⟨i, List.mem_cons_self i rest, hv⟩
          · exact Or.inr ⟨j, List.mem_cons_of_mem i hj, hjo⟩
      · rw [hv] at h
        rcases ih h with h2 | ⟨j, hj, hjo⟩
        · exact Or.inl h2
        · exact Or.inr ⟨j, List.mem_cons_of_mem i hj, hjo⟩

lemma ccip_sets (st : Store) (copt : Option String) (c : String)
    (h : copt = some c) :
    (createCollectionInPathS st copt) (getObjectKey (itemPath c)) =
      some (.iris []) := by
  subst h
  simp [createCollectionInPathS, setKey]

lemma ccip_preserves (st : Store) (copt : Option String) (k : String)
    (h : st k = some (.iris [])) :
    (createCollectionInPathS st copt) k = some (.iris []) := by
  cases copt with
  | none => exact h
  | some c =>
    unfold createCollectionInPathS setKey
    dsimp only
    by_cases e : k = getObjectKey (itemPath c)
    · rw [if_pos e]
    · rw [if_neg e]
      exact h

lemma addToS_spec (st : Store) (col x : String) (hcol : col ≠ "")
    (hx : x ≠ "") :
    ∃ st1, AddToS st col (some (.iri x)) = .ok st1 ∧
      iriListAt st1 (getObjectKey (itemPath col)) =
        addToFn x (iriListAt (addCollectionOnObject st col)
          (getObjectKey (itemPath col))) ∧
      (Consistent st → Consistent st1) := by
  refine ⟨_, addToS_eq st col (.iri x) hcol hx, ?_, ?_⟩
  · rw [iriListAt_setKey_self]
    rfl
  · intro hc
    exact consistent_setKey_iris _ _ (consistent_addCollectionOnObject col hc)

lemma removeFromS_spec (st : Store) (col x : String) (hcol : col ≠ "")
    (hx : x ≠ "") :
    ∃ st2, RemoveFromS st col (some (.iri x)) = .ok st2 ∧
      iriListAt st2 (getObjectKey (itemPath col)) =
        removeFirst x (iriListAt st (getObjectKey (itemPath col))) ∧
      (Consistent st → Consistent st2) := by
  refine ⟨_, removeFromS_eq st col (.iri x) hcol hx, ?_, ?_⟩
  · rw [iriListAt_setKey_self]
    rfl
  · intro hc
    exact consistent_setKey_iris _ _ hc

lemma addToS_count_one (st : Store) (col x : String) (hcol : col ≠ "")
    (hx : x ≠ "")
    (hcount : (iriListAt st (getObjectKey (itemPath col))).count x ≤ 1) :
    ∃ st1, AddToS st col (some (.iri x)) = .ok st1 ∧
      (iriListAt st1 (getObjectKey (itemPath col))).count x = 1 := by
  obtain ⟨st1, hadd, hlist, _⟩ := addToS_spec st col x hcol hx
  refine ⟨st1, hadd, ?_⟩
  rw [hlist]
  apply count_addToFn
  rcases listPres_addCollectionOnObject st col (getObjectKey (itemPath col))
    with h | h
  · rw [h]
    exact hcount
  · rw [h]
    simp

lemma addToIter_count (col x : String) (hcol : col ≠ "") (hx : x ≠ "") :
    ∀ (k : Nat) (st : Store), 1 ≤ k →
      (iriListAt st (getObjectKey (itemPath col))).count x ≤ 1 →
      ∃ st2, addToIter col x k st = .ok st2 ∧
        (iriListAt st2 (getObjectKey (itemPath col))).count x = 1 := by
  intro k
  induction k with
  | zero =>
    intro st h
    exact absurd h (by omega)
  | succ n ih =>
    intro st _ hcount
    obtain ⟨st1, hstep, hcnt⟩ := addToS_count_one st col x hcol hx hcount
    cases n with
    | zero =>
      refine ⟨st1, ?_, hcnt⟩
      simp [addToIter, hstep]
    | succ m =>
      obtain ⟨st3, h3, hc3⟩ := ih st1 (by omega) (by omega)
      refine ⟨st3, ?_, hc3⟩
      simp only [addToIter, hstep]
      exact h3

lemma ccip_foldl_preserves (c : String) :
    ∀ (opts : List (Option String)) (st : Store),
      st (getObjectKey (itemPath c)) = some (.iris []) →
      (opts.foldl createCollectionInPathS st) (getObjectKey (itemPath c)) =
        some (.iris []) := by
  intro opts
  induction opts with
  | nil => intro st h; exact h
  | cons a rest ih =>
    intro st h
    exact ih _ (ccip_preserves st a _ h)

lemma ccip_foldl_mem (c : String) :
    ∀ (opts : List (Option String)) (st : Store), some c ∈ opts →
      (opts.foldl createCollectionInPathS st) (getObjectKey (itemPath c)) =
        some (.iris []) := by
  intro opts
  induction opts with
  | nil => intro st h; exact absurd h (List.not_mem_nil _)
  | cons a rest ih =>
    intro st h
    rcases List.mem_cons.mp h with h | h
    · exact ccip_foldl_preserves c rest _ (ccip_sets st a c h.symm)
    · exact ih _ h

lemma createCollections_eq_foldl (st : Store) (o : Obj) :
    createCollections st o =
      ((if o.isActor then [o.inbox, o.outbox, o.followers, o.following, o.liked]
        else []) ++ [o.replies, o.likes, o.shares]).foldl
        createCollectionInPathS st := by
  by_cases hA : o.isActor <;>
    simp [createCollections, hA, List.foldl_cons, List.foldl_nil]

lemma mem_some_of_mem_collectionRefs {c : String} {o : Obj}
    (hc : c ∈ collectionRefs o) :
    some c ∈ (if o.isActor then
        [o.inbox, o.outbox, o.followers, o.following, o.liked] else []) ++
      [o.replies, o.likes, o.shares] := by
  unfold collectionRefs at hc
  obtain ⟨a, ha, hae⟩ := List.mem_filterMap.mp hc
  simp only [id] at hae
  subst hae
  exact ha

/-- C1 (counterexample): after AddTo on an empty store, the sub-key
named __items under the collection prefix holds nothing, while the
membership list sits at the __raw object key; so the membership list is
not stored under an __items sub-key. -/
theorem c1_items_key_unused :
    storeAt (AddToS emptyStore ("http://example.com/inbox")
        (some (.iri ("http://example.com/1"))))
      (itemPath ("http://example.com/inbox") ++ "/" ++ "__items") = some none ∧
    storeAt (AddToS emptyStore ("http://example.com/inbox")
        (some (.iri ("http://example.com/1"))))
      (getObjectKey (itemPath ("http://example.com/inbox"))) =
      some (some (.iris ["http://example.com/1"])) := by decide

/-- C1 (amended): an owned collection keeps both its marker and its
membership IRI list at the single __raw object key of its prefix; AddTo
appends the link to the list stored at that key and every key AddTo or
RemoveFrom writes is an object key, so no separate __items key is ever
created. -/
theorem c1_membership_lives_at_raw_key (st : Store) (col x : String)
    (hcol : col ≠ "") (hx : x ≠ "") :
    ∃ st2, AddToS st col (some (.iri x)) = .ok st2 ∧
      (∃ l, st2 (getObjectKey (itemPath col)) = some (.iris l) ∧ x ∈ l) ∧
      WritesRawOnly st st2 ∧
      ∃ st3, RemoveFromS st2 col (some (.iri x)) = .ok st3 ∧
        WritesRawOnly st2 st3 := by
  refine ⟨_, addToS_eq st col (.iri x) hcol hx,
    ⟨addToFn x (iriListAt (addCollectionOnObject st col)
      (getObjectKey (itemPath col))), ?_, mem_addToFn_self x _⟩, ?_, _,
    removeFromS_eq _ col (.iri x) hcol hx, ?_⟩
  · simp [setKey]
  · exact writesRawOnly_trans (writesRawOnly_addCollectionOnObject st col)
      (writesRawOnly_setKey _ _ _)
  · exact writesRawOnly_setKey _ _ _

/-- Witness for C1 on the empty store. -/
theorem c1_membership_lives_at_raw_key_witness :
    ∃ st2, AddToS emptyStore ("http://example.com/inbox")
        (some (.iri ("http://example.com/1"))) = .ok st2 ∧
      (∃ l, st2 (getObjectKey (itemPath ("http://example.com/inbox"))) =
          some (.iris l) ∧ ("http://example.com/1") ∈ l) ∧
      WritesRawOnly emptyStore st2 ∧
      ∃ st3, RemoveFromS st2 ("http://example.com/inbox")
          (some (.iri ("http://example.com/1"))) = .ok st3 ∧
        WritesRawOnly st2 st3 :=
  c1_membership_lives_at_raw_key emptyStore _ _ (by decide) (by decide)

/-- C2 (counterexample): AddTo of an objectful item whose object key is
absent succeeds and appends the IRI, yet the object key is still absent
afterwards, so the item is not written through and not loadable. -/
theorem c2_no_write_through :
    storeAt (AddToS emptyStore ("http://example.com/inbox")
        (some (.obj c2Obj)))
      (getObjectKey (itemPath ("http://example.com/1"))) = some none ∧
    storeAt (AddToS emptyStore ("http://example.com/inbox")
        (some (.obj c2Obj)))
      (getObjectKey (itemPath ("http://example.com/inbox"))) =
      some (some (.iris ["http://example.com/1"])) := by decide

/-- C2 (amended): AddTo never writes an objectful item through to the
object store: when the parent object of the collection is not stored and
the item object key differs from the collection key, the value at the
item object key is unchanged by AddTo (in particular it stays absent). -/
theorem c2_addTo_does_not_write_item (st : Store) (col : String) (o : Obj)
    (hcol : col ≠ "") (hid : o.id ≠ "")
    (hparent : loadOneFromPath st (splitCollection col).1 = none)
    (hkey : getObjectKey (itemPath o.id) ≠ getObjectKey (itemPath col)) :
    ∃ st2, AddToS st col (some (.obj o)) = .ok st2 ∧
      st2 (getObjectKey (itemPath o.id)) = st (getObjectKey (itemPath o.id)) := by
  have ha : addCollectionOnObject st col = st := by
    unfold addCollectionOnObject
    by_cases hv : validCollection (splitCollection col).2
    · rw [if_pos hv, hparent]
    · rw [if_neg hv]
  refine ⟨_, addToS_eq st col (.obj o) hcol hid, ?_⟩
  rw [ha]
  simp [setKey, hkey]

/-- Witness for C2 on the empty store. -/
theorem c2_addTo_does_not_write_item_witness :
    ∃ st2, AddToS emptyStore ("http://example.com/inbox")
        (some (.obj c2Obj)) = .ok st2 ∧
      st2 (getObjectKey (itemPath c2Obj.id)) =
        emptyStore (getObjectKey (itemPath c2Obj.id)) :=
  c2_addTo_does_not_write_item emptyStore _ c2Obj (by decide) (by decide)
    (by decide) (by decide)

/-- C3 (counterexample): the object key of c3Obj already exists in
c3Store and its replies sub-collection holds a member, yet re-saving the
object rewrites the sub-collection key to the empty list, so
createCollections is not guarded by an existence check. -/
theorem c3_resave_recreates :
    c3Store (getObjectKey (itemPath ("http://example.com/1"))) =
      some (.obj c3Obj) ∧
    c3Store (getObjectKey (itemPath ("http://example.com/1/replies"))) =
      some (.iris ["http://example.com/9"]) ∧
    (save c3Store c3Obj)
      (getObjectKey (itemPath ("http://example.com/1/replies"))) =
      some (.iris []) := by decide

/-- C3 (amended): save runs createCollections unconditionally: every save
of an object rewrites each of its non-nil owned sub-collection references
to the encoded empty IRI list, whether or not the object key previously
existed. -/
theorem c3_save_always_creates_collections (st : Store) (o : Obj)
    (c : String) (hc : c ∈ collectionRefs o)
    (hne : getObjectKey (itemPath c) ≠ getObjectKey (itemPath o.id)) :
    (save st o) (getObjectKey (itemPath c)) = some (.iris []) := by
  have hcc : (createCollections st o) (getObjectKey (itemPath c)) =
      some (.iris []) := by
    rw [createCollections_eq_foldl]
    exact ccip_foldl_mem c _ st (mem_some_of_mem_collectionRefs hc)
  unfold save setKey
  rw [if_neg hne]
  exact hcc

/-- Witness for C3 on the empty store with c3Obj. -/
theorem c3_save_always_creates_collections_witness :
    (save emptyStore c3Obj)
      (getObjectKey (itemPath ("http://example.com/1/replies"))) =
      some (.iris []) :=
  c3_save_always_creates_collections emptyStore c3Obj
    ("http://example.com/1/replies") (by decide) (by decide)

/-- C4: starting from a state whose stored list holds the IRI at most
once (the invariant every reachable state satisfies), k invocations of
AddTo with the same collection and item IRI, for any k at least one,
leave a stored membership list holding exactly one occurrence of the
IRI. -/
theorem c4_addTo_dedup (st : Store) (col x : String) (k : Nat)
    (hcol : col ≠ "") (hx : x ≠ "") (hk : 1 ≤ k)
    (hcount : (iriListAt st (getObjectKey (itemPath col))).count x ≤ 1) :
    ∃ st2, addToIter col x k st = .ok st2 ∧
      (iriListAt st2 (getObjectKey (itemPath col))).count x = 1 :=
  addToIter_count col x hcol hx k st hk hcount

/-- Witness for C4 with three repetitions on the empty store. -/
theorem c4_addTo_dedup_witness :
    ∃ st2, addToIter ("http://example.com/inbox") ("http://example.com/1")
        3 emptyStore = .ok st2 ∧
      (iriListAt st2
        (getObjectKey (itemPath ("http://example.com/inbox")))).count
        ("http://example.com/1") = 1 :=
  c4_addTo_dedup emptyStore _ _ 3 (by decide) (by decide) (by omega)
    (by decide)

/-- C5: starting from a state whose stored list holds the IRI at most
once, whose objects sit at the object keys of their own ids, and whose
listed members do not alias the item path, AddTo followed by RemoveFrom
of the same IRI leaves a stored list without the IRI, and loading the
owned collection yields members none of which carry that id. -/
theorem c5_remove_cancels_add (st : Store) (col x : String)
    (hcol : col ≠ "") (hx : x ≠ "")
    (hcount : (iriListAt st (getObjectKey (itemPath col))).count x ≤ 1)
    (hcons : Consistent st)
    (hpaths : ∀ i ∈ iriListAt st (getObjectKey (itemPath col)),
        itemPath i = itemPath x → i = x) :
    ∃ st1 st2, AddToS st col (some (.iri x)) = .ok st1 ∧
      RemoveFromS st1 col (some (.iri x)) = .ok st2 ∧
      x ∉ iriListAt st2 (getObjectKey (itemPath col)) ∧
      ∀ o ∈ loadCollectionItems st2 col, o.id ≠ x := by
  obtain ⟨st1, hadd, hl1eq, hc1⟩ := addToS_spec st col x hcol hx
  obtain ⟨st2, hrem, hl2eq, hc2⟩ := removeFromS_spec st1 col x hcol hx
  have hl1 := listPres_addCollectionOnObject st col
    (getObjectKey (itemPath col))
  have hcnt1 : (iriListAt (addCollectionOnObject st col)
      (getObjectKey (itemPath col))).count x ≤ 1 := by
    rcases hl1 with h | h
    · rw [h]; exact hcount
    · rw [h]; simp
  have hL2 : iriListAt st2 (getObjectKey (itemPath col)) =
      removeFirst x (addToFn x (iriListAt (addCollectionOnObject st col)
        (getObjectKey (itemPath col)))) := by
    rw [hl2eq, hl1eq]
  have hnot : x ∉ iriListAt st2 (getObjectKey (itemPath col)) := by
    rw [hL2]
    exact not_mem_removeFirst_addToFn x _ hcnt1
  refine ⟨st1, st2, hadd, hrem, hnot, ?_⟩
  intro o ho
  have hcons2 : Consistent st2 := hc2 (hc1 hcons)
  unfold loadCollectionItems at ho
  rcases mem_loadItemsElements ho with h0 | ⟨i, hi, hio⟩
  · exact absurd h0 (List.not_mem_nil o)
  · intro heq
    have hpi : itemPath i = itemPath x := by
      rw [← heq]
      exact getObjectKey_inj (hcons2 _ o hio)
    rw [hL2] at hi
    have hiadd := mem_of_mem_removeFirst hi
    rcases mem_of_mem_addToFn hiadd with hil1 | rfl
    · rcases hl1 with h | h
      · rw [h] at hil1
        have hix : i = x := hpaths i hil1 hpi
        subst hix
        exact not_mem_removeFirst_addToFn i _ hcnt1 hi
      · rw [h] at hil1
        exact absurd hil1 (List.not_mem_nil i)
    · exact not_mem_removeFirst_addToFn i _ hcnt1 hi

/-- Witness for C5 on the empty store. -/
theorem c5_remove_cancels_add_witness :
    ∃ st1 st2, AddToS emptyStore ("http://example.com/inbox")
        (some (.iri ("http://example.com/1"))) = .ok st1 ∧
      RemoveFromS st1 ("http://example.com/inbox")
        (some (.iri ("http://example.com/1"))) = .ok st2 ∧
      ("http://example.com/1") ∉ iriListAt st2
        (getObjectKey (itemPath ("http://example.com/inbox"))) ∧
      ∀ o ∈ loadCollectionItems st2 ("http://example.com/inbox"),
        o.id ≠ "http://example.com/1" :=
  c5_remove_cancels_add emptyStore _ _ (by decide) (by decide) (by decide)
    (fun k o h => by simp [emptyStore] at h)
    (fun i hi => by simp [emptyStore, iriListAt] at hi)

/-- C6 (counterexample): Load invoked on a repository whose handle is not
open does not fail with a not-open error; the method re-opens the store
itself and returns the stored object. -/
theorem c6_load_on_closed_not_notOpen :
    LoadR ⟨false, c6Store⟩ ("http://example.com/x") = .ok c6Obj ∧
    LoadR ⟨false, c6Store⟩ ("http://example.com/x") ≠ .error .notOpen := by
  constructor
  · rfl
  · intro h
    exact Except.noConfusion ((show LoadR ⟨false, c6Store⟩
        ("http://example.com/x") = .ok c6Obj from rfl).symm.trans h)

/-- C6 (amended): only the OAuth2 and metadata methods guard the handle
and fail not-open on a closed repository; the repository.go methods Load
and Save open the store themselves on every call and behave exactly as on
an open handle, never returning not-open. -/
theorem c6_not_open_split :
    (∀ ost id, GetClient false ost id = .error .notOpen) ∧
    (∀ st iri pw, passwordSet false st iri pw = .error .notOpen) ∧
    (∀ st iri, LoadR ⟨false, st⟩ iri = loadFromPathOne st iri) ∧
    (∀ st o, SaveR ⟨false, st⟩ o = .ok (save st o)) :=
  ⟨fun _ _ => rfl, fun _ _ _ => rfl, fun _ _ => rfl, fun _ _ => rfl⟩

/-- C7 (counterexample): PasswordSet accepts the empty (non-nil)
password: it succeeds and replaces the stored record, instead of failing
and leaving the record unchanged. -/
theorem c7_empty_pw_accepted :
    storeAt (passwordSet true c7Store ("https://example.com/u") (some ("")))
      (getMetadataKey (itemPath ("https://example.com/u"))) =
      some (some (.meta ⟨some (bcryptGenerateFromPassword ("") (-1)),
        some ("PEMKEY")⟩)) ∧
    c7Store (getMetadataKey (itemPath ("https://example.com/u"))) =
      some (.meta c7Meta) ∧
    (some (.meta ⟨some (bcryptGenerateFromPassword ("") (-1)),
      some ("PEMKEY")⟩) : Option StoredVal) ≠ some (.meta c7Meta) := by decide

/-- C7 (amended): on an open handle with a resolvable path, PasswordSet
with any non-nil password loads the existing record, replaces only the
password field with the bcrypt hash at default cost, keeps the stored
private key, and touches no other key; it fails only for a nil password,
leaving the store unchanged in that case. -/
theorem c7_password_set_replaces_only_pw (st : Store) (iri pwv : String)
    (hpath : itemPath iri ≠ "") :
    (∃ st2, passwordSet true st iri (some pwv) = .ok st2 ∧
       st2 (getMetadataKey (itemPath iri)) =
         some (.meta ⟨some (bcryptGenerateFromPassword pwv (-1)),
                      metaPrivateKeyAt st (getMetadataKey (itemPath iri))⟩) ∧
       ∀ k2, k2 ≠ getMetadataKey (itemPath iri) → st2 k2 = st k2) ∧
    passwordSet true st iri none = .error .nilPw := by
  constructor
  · refine ⟨setKey st (getMetadataKey (itemPath iri))
        (.meta ⟨some (bcryptGenerateFromPassword pwv (-1)),
                metaPrivateKeyAt st (getMetadataKey (itemPath iri))⟩),
      ?_, ?_, ?_⟩
    · unfold passwordSet metaPrivateKeyAt
      cases hm : st (getMetadataKey (itemPath iri)) with
      | none => simp [hpath, hm]
      | some v => cases v <;> simp [hpath, hm]
    · simp [setKey]
    · intro k2 hk2
      simp [setKey, hk2]
  · rfl

/-- Witness for C7 on c7Store. -/
theorem c7_password_set_replaces_only_pw_witness :
    (∃ st2, passwordSet true c7Store ("https://example.com/u")
        (some ("s3cret")) = .ok st2 ∧
       st2 (getMetadataKey (itemPath ("https://example.com/u"))) =
         some (.meta ⟨some (bcryptGenerateFromPassword ("s3cret") (-1)),
           metaPrivateKeyAt c7Store
             (getMetadataKey (itemPath ("https://example.com/u")))⟩) ∧
       ∀ k2, k2 ≠ getMetadataKey (itemPath ("https://example.com/u")) →
         st2 k2 = c7Store k2) ∧
    passwordSet true c7Store ("https://example.com/u") none =
      .error .nilPw :=
  c7_password_set_replaces_only_pw c7Store _ _ (by decide)

/-- C9 (counterexample): two distinct IRIs of the same host map to the
same storage key prefix, because the prefix drops the scheme; so the
mapping is not injective over distinct IRIs sharing a host. -/
theorem c9_same_host_collision :
    itemPath ("http://example.com/a") = itemPath ("https://example.com/a") ∧
    ("http://example.com/a" : String) ≠ "https://example.com/a" ∧
    (parseURL ("http://example.com/a")).map ParsedURL.host =
      some ("example.com") ∧
    (parseURL ("https://example.com/a")).map ParsedURL.host =
      some ("example.com") := by decide

/-- C9 (amended): the prefix mapping is a total function that sends every
unparseable IRI to the empty prefix, and it is injective only on
same-host IRIs that share a scheme and whose joined host and path survive
path cleaning unchanged; on that class equal prefixes force equal
IRIs. -/
theorem c9_prefix_deterministic_and_restricted_injective :
    (∀ i, parseURL i = none → itemPath i = "") ∧
    (∀ sch hst p1 p2 i1 i2,
       parseURL i1 = some ⟨sch, hst, p1⟩ →
       parseURL i2 = some ⟨sch, hst, p2⟩ →
       i1 = sch ++ "://" ++ hst ++ p1 → i2 = sch ++ "://" ++ hst ++ p2 →
       filepathJoin [hst, p1] = hst ++ p1 →
       filepathJoin [hst, p2] = hst ++ p2 →
       itemPath i1 = itemPath i2 → i1 = i2) := by
  constructor
  · intro i hp
    simp [itemPath, hp]
  · intro sch hst p1 p2 i1 i2 h1 h2 hr1 hr2 hj1 hj2 heq
    have e1 : itemPath i1 = hst ++ p1 := by
      unfold itemPath
      rw [h1]
      exact hj1
    have e2 : itemPath i2 = hst ++ p2 := by
      unfold itemPath
      rw [h2]
      exact hj2
    have hpp : hst ++ p1 = hst ++ p2 := by
      rw [← e1, ← e2, heq]
    have hp12 : p1 = p2 := string_append_cancel_left hpp
    rw [hr1, hr2, hp12]

/-- Witness for C9: the unparseable branch at a control-character string
and the injectivity branch at a concrete canonical IRI. -/
theorem c9_prefix_deterministic_and_restricted_injective_witness :
    itemPath ("bad
iri") = "" ∧
    ("https" ++ "://" ++ "example.com" ++ "/a" : String) =
      "https" ++ "://" ++ "example.com" ++ "/a" :=
  ⟨c9_prefix_deterministic_and_restricted_injective.1 ("bad
iri") (by decide),
   c9_prefix_deterministic_and_restricted_injective.2 ("https") "example.com"
     "/a" "/a" _ _ (by decide) (by decide) rfl rfl (by decide) (by decide) rfl⟩

/-- C10: RemoveFrom on a collection whose key is absent does not fail
with a not-found error: the missing list is treated as empty, the removal
is applied, and the encoded empty IRI list is written at the collection
key, which therefore exists after the call. -/
theorem c10_remove_from_missing (st : Store) (col : String) (item : Item)
    (habsent : st (getObjectKey (itemPath col)) = none)
    (hcol : col ≠ "") (hlink : item.getLink ≠ "") :
    ∃ st2, RemoveFromS st col (some item) = .ok st2 ∧
      st2 (getObjectKey (itemPath col)) = some (.iris []) := by
  refine ⟨_, removeFromS_eq st col item hcol hlink, ?_⟩
  simp [setKey, iriListAt, habsent, removeFirst]

/-- Witness for C10 on the empty store. -/
theorem c10_remove_from_missing_witness :
    ∃ st2, RemoveFromS emptyStore ("http://example.com/inbox")
        (some (.iri ("http://example.com/1"))) = .ok st2 ∧
      st2 (getObjectKey (itemPath ("http://example.com/inbox"))) =
        some (.iris []) :=
  c10_remove_from_missing emptyStore _ _ rfl (by decide) (by decide)

@[simp] lemma AccessData.client_mk (c ad acc t r e s u ca) :
    (AccessData.mk c ad acc t r e s u ca).client = c := rfl

@[simp] lemma AccessData.authorizeData_mk (c ad acc t r e s u ca) :
    (AccessData.mk c ad acc t r e s u ca).authorizeData = ad := rfl

@[simp] lemma AccessData.accessData_mk (c ad acc t r e s u ca) :
    (AccessData.mk c ad acc t r e s u ca).accessData = acc := rfl

@[simp] lemma AccessData.accessToken_mk (c ad acc t r e s u ca) :
    (AccessData.mk c ad acc t r e s u ca).accessToken = t := rfl

@[simp] lemma AccessData.refreshToken_mk (c ad acc t r e s u ca) :
    (AccessData.mk c ad acc t r e s u ca).refreshToken = r := rfl

@[simp] lemma AccessData.withClient_mk (c ad acc t r e s u ca c2) :
    (AccessData.mk c ad acc t r e s u ca).withClient c2 =
      .mk c2 ad acc t r e s u ca := rfl

@[simp] lemma AccessData.withAuthorizeData_mk (c ad acc t r e s u ca ad2) :
    (AccessData.mk c ad acc t r e s u ca).withAuthorizeData ad2 =
      .mk c ad2 acc t r e s u ca := rfl

@[simp] lemma AccessData.withAccessData_mk (c ad acc t r e s u ca acc2) :
    (AccessData.mk c ad acc t r e s u ca).withAccessData acc2 =
      .mk c ad acc2 t r e s u ca := rfl

lemma loadTxnAccessShallow_spec (ost : OauthStore) (rt : String)
    (acc2 : AccRec) (hacc2 : ost.access rt = some acc2) :
    ∃ rf, loadTxnAccessShallow ost rt = .ok rf ∧
      rf.accessToken = acc2.accessToken ∧ rf.authorizeData = none ∧
      rf.accessData = none := by
  unfold loadTxnAccessShallow
  rw [hacc2]
  unfold loadRawAccess
  by_cases hac : acc2.client = ""
  · simp [hac]
  · simp only [hac, ne_eq, not_false_iff, if_true, AccessData.client_mk]
    rcases hcc : ost.clients acc2.client with _ | cl
    · simp [loadTxnClient, hcc, hac]
    · simp [loadTxnClient, hcc, hac]

lemma saveAccess_spec (ost : OauthStore) (data : AccessData) (c : ClRec)
    (ad : AuthorizeData)
    (hcl : data.client = some c) (had : data.authorizeData = some ad)
    (hrt : data.refreshToken ≠ "") :
    ∃ ost2, SaveAccess true ost data = .ok ost2 ∧
      ost2.clients = ost.clients ∧
      ost2.authorize = ost.authorize ∧
      ost2.access data.accessToken =
        some ⟨c.id, ad.code, data.accessToken, data.refreshToken,
          data.expiresIn, data.scope, data.redirectUri, data.createdAt⟩ ∧
      ∀ q, q ≠ data.accessToken → ost2.access q = ost.access q := by
  refine ⟨{ ost with
      refresh := fun q => if q = data.refreshToken
        then some ⟨data.accessToken⟩ else ost.refresh q,
      access := fun q => if q = data.accessToken
        then some ⟨c.id, ad.code, data.accessToken, data.refreshToken,
          data.expiresIn, data.scope, data.redirectUri, data.createdAt⟩
        else ost.access q }, ?_, rfl, rfl, ?_, ?_⟩
  · unfold SaveAccess
    rw [had, hcl]
    simp [hrt]
  · simp
  · intro q hq
    simp [hq]

lemma loadTxnAuthorize_spec (ost : OauthStore) (now : Int) (code : String)
    (arec : AuthRec) (cf2 : ClRec)
    (harec : ost.authorize code = some arec)
    (harcode : arec.code ≠ "")
    (hc2 : ost.clients arec.client = some cf2)
    (hexp : ¬(arec.createdAt + arec.expiresIn < now)) :
    loadTxnAuthorize ost now code =
      .ok ⟨some cf2, arec.code, arec.expiresIn, arec.scope, arec.redirectURI,
        arec.state, arec.createdAt⟩ := by
  unfold loadTxnAuthorize loadRawAuthorize loadTxnClient
  rw [harec]
  simp [harcode, hexp, hc2]

lemma loadTxnAccessFull_spec (ost : OauthStore) (now : Int) (tok : String)
    (rec0 : AccRec) (cfull cf2 : ClRec) (arec : AuthRec) (acc2 : AccRec)
    (hrec : ost.access tok = some rec0)
    (hcid : rec0.client ≠ "")
    (hadc : rec0.authorize ≠ "")
    (hrt : rec0.refreshToken ≠ "")
    (hclient : ost.clients rec0.client = some cfull)
    (harec : ost.authorize rec0.authorize = some arec)
    (harcode : arec.code ≠ "")
    (hc2 : ost.clients arec.client = some cf2)
    (hexp : ¬(arec.createdAt + arec.expiresIn < now))
    (hacc2 : ost.access rec0.refreshToken = some acc2) :
    ∃ res, loadTxnAccessFull ost now tok = .ok res ∧
      res.client = some cfull ∧
      (∃ af, res.authorizeData = some af ∧ af.code = arec.code ∧
        af.client = some cf2) ∧
      (∃ rf, res.accessData = some rf ∧ rf.accessToken = acc2.accessToken ∧
        rf.authorizeData = none ∧ rf.accessData = none) := by
  obtain ⟨rf, hsh, hrf1, hrf2, hrf3⟩ :=
    loadTxnAccessShallow_spec ost rec0.refreshToken acc2 hacc2
  have hauth := loadTxnAuthorize_spec ost now rec0.authorize arec cf2 harec
    harcode hc2 hexp
  unfold loadTxnAccessFull loadRawAccess loadTxnClient
  rw [hrec]
  simp only [hcid, hadc, hrt, ne_eq, not_false_iff, if_true, and_true,
    true_and, and_self, ite_true, AccessData.client_mk,
    AccessData.authorizeData_mk, AccessData.accessData_mk,
    AccessData.accessToken_mk, AccessData.refreshToken_mk]
  rw [hclient]
  simp only [AccessData.withClient_mk, AccessData.authorizeData_mk]
  rw [hauth]
  simp only [hadc, hrt, ne_eq, not_false_iff, ite_true,
    AccessData.withAuthorizeData_mk, AccessData.accessToken_mk,
    AccessData.refreshToken_mk, AccessData.client_mk,
    AccessData.authorizeData_mk, AccessData.accessData_mk]
  rw [hsh]
  simp only [AccessData.withAccessData_mk]
  exact ⟨_, rfl, rfl, ⟨_, rfl, rfl, rfl⟩, ⟨rf, rfl, hrf1, hrf2, hrf3⟩⟩

/-- C8: SaveAccess followed by LoadAccess of the same token resolves, in
one view, the client field to the full stored client record, the
authorize code to the full stored authorize record, and the refresh token
to a second-level access record that carries no further dependencies; the
resolved client and authorize code are the ones stored by SaveAccess. -/
theorem c8_load_access_round_trip
    (ost : OauthStore) (now : Int) (data : AccessData)
    (c cfull cf2 : ClRec) (ad : AuthorizeData) (arec : AuthRec)
    (acc2 : AccRec)
    (hcl : data.client = some c)
    (hcid : c.id ≠ "")
    (htok : data.accessToken ≠ "")
    (had : data.authorizeData = some ad)
    (hadc : ad.code ≠ "")
    (hrt : data.refreshToken ≠ "")
    (hrtne : data.refreshToken ≠ data.accessToken)
    (hclient : ost.clients c.id = some cfull)
    (harec : ost.authorize ad.code = some arec)
    (harcode : arec.code = ad.code)
    (hc2 : ost.clients arec.client = some cf2)
    (hexp : ¬(arec.createdAt + arec.expiresIn < now))
    (hacc2 : ost.access data.refreshToken = some acc2) :
    ∃ ost2, SaveAccess true ost data = .ok ost2 ∧
      ∃ res, LoadAccess true ost2 now data.accessToken = .ok res ∧
        res.client = some cfull ∧
        (∃ af, res.authorizeData = some af ∧ af.code = ad.code ∧
          af.client = some cf2) ∧
        (∃ rf, res.accessData = some rf ∧ rf.accessToken = acc2.accessToken ∧
          rf.authorizeData = none ∧ rf.accessData = none) := by
  obtain ⟨ost2, hsave, hcl2, hau2, htokrec, hframe⟩ :=
    saveAccess_spec ost data c ad hcl had hrt
  obtain ⟨res, hload, hresc, haf, hrf⟩ :=
    loadTxnAccessFull_spec ost2 now data.accessToken
      ⟨c.id, ad.code, data.accessToken, data.refreshToken, data.expiresIn,
        data.scope, data.redirectUri, data.createdAt⟩
      cfull cf2 arec acc2 htokrec hcid hadc hrt
      (by rw [hcl2]; exact hclient)
      (by rw [hau2]; exact harec)
      (by rw [harcode]; exact hadc)
      (by rw [hcl2]; exact hc2)
      hexp
      (by rw [hframe data.refreshToken hrtne]; exact hacc2)
  refine ⟨ost2, hsave, res, ?_, hresc, ?_, hrf⟩
  · unfold LoadAccess
    simp [htok, hload]
  · obtain ⟨af, h1, h2, h3⟩ := haf
    exact ⟨af, h1, h2.trans harcode, h3⟩

/-- Witness for C8 on a concrete OAuth2 store. -/
theorem c8_load_access_round_trip_witness :
    ∃ ost2, SaveAccess true c8Ost c8Data = .ok ost2 ∧
      ∃ res, LoadAccess true ost2 0 c8Data.accessToken = .ok res ∧
        res.client = some ⟨"c1", "sec", "uri"⟩ ∧
        (∃ af, res.authorizeData = some af ∧ af.code = "a1" ∧
          af.client = some ⟨"c1", "sec", "uri"⟩) ∧
        (∃ rf, res.accessData = some rf ∧ rf.accessToken = "t0" ∧
          rf.authorizeData = none ∧ rf.accessData = none) :=
  c8_load_access_round_trip c8Ost 0 c8Data ⟨"c1", "", ""⟩
    ⟨"c1", "sec", "uri"⟩ ⟨"c1", "sec", "uri"⟩
    ⟨none, "a1", 3600, "", "", "", 0⟩ ⟨"c1", "a1", 3600, "", "", "", 0⟩
    ⟨"", "", "t0", "", 0, "", "", 0⟩
    rfl (by decide) (by decide) rfl (by decide) (by decide) (by decide)
    (by decide) (by decide) (by decide) (by decide) (by decide) (by decide)

end Badger
